import Mathlib

/-!
Verification of the async Gamma API client found in
`agents/polymarket/gamma_async.py`.

The file gives a shallow embedding of the client's endpoint builders, of the
single-page fetchers `get_markets` and `get_events`, and of the concurrent
paginator `get_all_current_markets`, and proves theorems about pagination,
aggregation order and error handling.

Modelling conventions:
* raw JSON records are an abstract type `α`; parsed Pydantic models an
  abstract type `β`;
* a single HTTP exchange is an `HttpResponse α` (status plus decoded body);
* `parse_pydantic_market` returns the parsed model or `None` when any
  exception is caught, so it is modelled as a function `α → Option β`;
* a raised Python exception is an explicit `GammaError` value;
* `asyncio.gather(*tasks, return_exceptions=True)` returns one outcome per
  task, in task-submission order (ascending page order), regardless of the
  order in which the coroutines complete; a fan-out run is therefore fully
  described by a function `pages : Nat → PageResult α` giving the outcome of
  the request for page `i` (offset `i * limit`).
-/

namespace GammaAsync

/-- Field `self.gamma_url` set in `AsyncGammaMarketClient.__init__`. -/
def gamma_url : String := "https://gamma-api.polymarket.com"

/-- Field `self.gamma_markets_endpoint = self.gamma_url + "/markets"`. -/
def gamma_markets_endpoint : String := gamma_url ++ "/markets"

/-- Field `self.gamma_events_endpoint = self.gamma_url + "/events"`. -/
def gamma_events_endpoint : String := gamma_url ++ "/events"

/-- Message of the exception raised by `get_markets` / `get_events` when
`parse_pydantic` and `local_file_path` are both supplied. -/
def configErrorMessage : String :=
  "Cannot use \"parse_pydantic\" and \"local_file\" params simultaneously."

/-- Message of the exception raised by `get_markets` / `get_events` on a
non-200 HTTP status: the f-string interpolation of `resp.status` into
"Gamma API error: HTTP ...". -/
def apiErrorMessage (status : Nat) : String :=
  "Gamma API error: HTTP " ++ toString status

/-- The Python exceptions raised by `get_markets` / `get_events`, with the
message they carry. -/
inductive GammaError where
  | configError (msg : String)
  | apiError (msg : String)
deriving DecidableEq

/-- One HTTP exchange against an endpoint: the response status and (for
status 200) the JSON-decoded body, a list of raw records. -/
structure HttpResponse (α : Type) where
  status : Nat
  body : List α
deriving DecidableEq

/-- What a call to `get_markets` / `get_events` returns to its caller:
a raised exception, the raw record list, the parsed model list, or the
implicit Python `None` reached when the `local_file_path` branch falls
through without a `return` statement. -/
inductive CallReturn (α β : Type) where
  | raised (e : GammaError)
  | rawList (records : List α)
  | parsedList (records : List β)
  | noneReturn
deriving DecidableEq

/-- Observable trace of one `get_markets` / `get_events` call:
whether `_get_session` was reached, whether the HTTP request was issued,
what was written to `local_file_path` (path and decoded body), and the
returned value. -/
structure CallTrace (α β : Type) where
  sessionAcquired : Bool
  requestMade : Bool
  fileWrite : Option (String × List α)
  ret : CallReturn α β
deriving DecidableEq

/-- Embedding of `AsyncGammaMarketClient.get_markets`: the configuration
check, then session acquisition and the GET request, then the status-200
branch with its `local_file_path` / `parse_pydantic` cases, the parsed list
being built by appending only truthy (non-`None`) results of
`parse_pydantic_market`, and the non-200 branch raising
`Exception(f"Gamma API error: HTTP ...")`. -/
def get_markets {α β : Type} (parse_pydantic : Bool) (local_file_path : Option String)
    (resp : HttpResponse α) (parse : α → Option β) : CallTrace α β :=
  if parse_pydantic && local_file_path.isSome then
    ⟨false, false, none, .raised (.configError configErrorMessage)⟩
  else if resp.status = 200 then
    match local_file_path with
    | some path => ⟨true, true, some (path, resp.body), .noneReturn⟩
    | none =>
      if parse_pydantic then
        ⟨true, true, none, .parsedList (resp.body.filterMap parse)⟩
      else
        ⟨true, true, none, .rawList resp.body⟩
  else
    ⟨true, true, none, .raised (.apiError (apiErrorMessage resp.status))⟩

/-- Embedding of `AsyncGammaMarketClient.get_events`: identical control flow
to `get_markets`, against the events endpoint, parsing with
`parse_pydantic_event` instead. -/
def get_events {γ δ : Type} (parse_pydantic : Bool) (local_file_path : Option String)
    (resp : HttpResponse γ) (parse : γ → Option δ) : CallTrace γ δ :=
  if parse_pydantic && local_file_path.isSome then
    ⟨false, false, none, .raised (.configError configErrorMessage)⟩
  else if resp.status = 200 then
    match local_file_path with
    | some path => ⟨true, true, some (path, resp.body), .noneReturn⟩
    | none =>
      if parse_pydantic then
        ⟨true, true, none, .parsedList (resp.body.filterMap parse)⟩
      else
        ⟨true, true, none, .rawList resp.body⟩
  else
    ⟨true, true, none, .raised (.apiError (apiErrorMessage resp.status))⟩

/-- Outcome of one fanned-out page request, as seen in the list returned by
`asyncio.gather(*tasks, return_exceptions=True)`: either the Exception
object (the page's `get_markets` call raised) or the page's record list. -/
inductive PageResult (α : Type) where
  | exn
  | ok (records : List α)
deriving DecidableEq

/-- The page indices for which `get_all_current_markets` constructs fan-out
tasks once page 0 came back full: `range(1, num_pages)` with
`num_pages = min(max_pages, 10)`. -/
def fanout_indices (max_pages : Nat) : List Nat :=
  List.range' 1 (min max_pages 10 - 1)

/-- The aggregation loop of `get_all_current_markets` over the gathered
results, in task order: an Exception is reported and skipped; a non-empty
page is appended and, when shorter than `limit`, breaks the loop; an empty
page is falsy (`elif result:`), so it is skipped without breaking. -/
def aggregate {α : Type} (limit : Nat) : List (PageResult α) → List α
  | [] => []
  | .exn :: rest => aggregate limit rest
  | .ok r :: rest =>
    if r.isEmpty then aggregate limit rest
    else if r.length < limit then r
    else r ++ aggregate limit rest

/-- Observable trace of one `get_all_current_markets` call: the offsets of
the pages requested concurrently in the fan-out phase, and either the
propagated page-0 exception or the accumulated record list. -/
structure FetchAllTrace (α : Type) where
  fanoutOffsets : List Nat
  result : Except Unit (List α)

/-- Embedding of `AsyncGammaMarketClient.get_all_current_markets`:
page 0 is fetched first and its exception, if any, propagates; an empty
page 0 is returned as-is; a full page 0 (`len == limit`) triggers the
fan-out over `fanout_indices max_pages` with `offset = page * limit`,
whose gathered results are folded by `aggregate`; a short page 0 is
returned alone. `pages i` is the outcome of the request for page `i`. -/
def get_all_current_markets {α : Type} (limit max_pages : Nat)
    (pages : Nat → PageResult α) : FetchAllTrace α :=
  match pages 0 with
  | .exn => ⟨[], .error ()⟩
  | .ok first_page =>
    if first_page.length = 0 then
      ⟨[], .ok first_page⟩
    else if first_page.length = limit then
      ⟨(fanout_indices max_pages).map (fun page => page * limit),
        .ok (first_page ++ aggregate limit ((fanout_indices max_pages).map pages))⟩
    else
      ⟨[], .ok first_page⟩

/-- A gathered page outcome that makes the aggregation loop break: a
successful page that is non-empty and shorter than `limit`. -/
def stops {α : Type} (limit : Nat) : PageResult α → Bool
  | .exn => false
  | .ok r => !r.isEmpty && decide (r.length < limit)

/-- Concatenation of the record lists of the successful outcomes, in order;
failed pages contribute nothing. -/
def flattenRecords {α : Type} : List (PageResult α) → List α
  | [] => []
  | .exn :: rest => flattenRecords rest
  | .ok r :: rest => r ++ flattenRecords rest

/-- Concrete fan-out outcome (limit 2): page 0 full, page 1 empty, page 2
full, all later pages empty. -/
def pagesC1 : Nat → PageResult Nat := fun i =>
  if i = 0 then .ok [1, 2]
  else if i = 1 then .ok []
  else if i = 2 then .ok [3, 4]
  else .ok []

/-- Concrete fan-out outcome (limit 2): pages 0 and 1 full, page 2 empty,
page 3 short and non-empty, later pages full with sentinel records. -/
def pagesW1 : Nat → PageResult Nat := fun i =>
  if i = 0 then .ok [1, 2]
  else if i = 1 then .ok [3, 4]
  else if i = 2 then .ok []
  else if i = 3 then .ok [5]
  else .ok [9, 9]

/-- Concrete fan-out outcome (limit 2): page 0 full, page 1 fails, page 2
short and non-empty, later pages empty. -/
def pagesW2 : Nat → PageResult Nat := fun i =>
  if i = 0 then .ok [1, 2]
  else if i = 1 then .exn
  else if i = 2 then .ok [3]
  else .ok []

/-- Concrete fan-out outcome (limit 2): pages 0, 1 and 2 full, every later
page empty. -/
def pagesW3 : Nat → PageResult Nat := fun i =>
  if i = 0 then .ok [1, 2]
  else if i = 1 then .ok [3, 4]
  else if i = 2 then .ok [5, 6]
  else .ok []

/-- Concrete fan-out outcome: every page request fails. -/
def pagesAllExn : Nat → PageResult Nat := fun _ => .exn

/-- Concrete fan-out outcome: page 0 returns a single record, later pages
full with sentinel records. -/
def pagesShort : Nat → PageResult Nat := fun i =>
  if i = 0 then .ok [7] else .ok [9, 9]

/-- Concrete fan-out outcome: page 0 returns no records. -/
def pagesEmpty : Nat → PageResult Nat := fun _ => .ok []

/-- Concrete fan-out outcome (limit 2): every page full. -/
def pagesFull : Nat → PageResult Nat := fun _ => .ok [7, 8]

/-- Aggregation distributes over an append whose first part contains no
breaking page: the loop runs through all of `pre` and continues into
`rest`. -/
theorem aggregate_append_of_no_stop {α : Type} (limit : Nat) (pre rest : List (PageResult α))
    (h : ∀ q ∈ pre, stops limit q = false) :
    aggregate limit (pre ++ rest) = aggregate limit pre ++ aggregate limit rest := by
  induction pre with
  | nil => simp [aggregate]
  | cons q pre ih =>
    have hq := h q (List.mem_cons_self q pre)
    have hpre : ∀ x ∈ pre, stops limit x = false := fun x hx => h x (List.mem_cons_of_mem q hx)
    cases q with
    | exn => simpa [aggregate] using ih hpre
    | ok r =>
      cases hemp : r.isEmpty with
      | true => simpa [aggregate, hemp] using ih hpre
      | false =>
        have hns : ¬ r.length < limit := by simpa [stops, hemp] using hq
        simp [aggregate, hemp, hns, ih hpre, List.append_assoc]

/-- On a run of pages with no breaking page, the aggregation loop collects
exactly the records of the successful pages, in order. -/
theorem aggregate_no_stop_eq_flatten {α : Type} (limit : Nat) (l : List (PageResult α))
    (h : ∀ q ∈ l, stops limit q = false) :
    aggregate limit l = flattenRecords l := by
  induction l with
  | nil => rfl
  | cons q l ih =>
    have hq := h q (List.mem_cons_self q l)
    have hl : ∀ x ∈ l, stops limit x = false := fun x hx => h x (List.mem_cons_of_mem q hx)
    cases q with
    | exn => simpa [aggregate, flattenRecords] using ih hl
    | ok r =>
      cases hemp : r.isEmpty with
      | true =>
        have hr : r = [] := by simpa using hemp
        subst hr
        simpa [aggregate, flattenRecords] using ih hl
      | false =>
        have hns : ¬ r.length < limit := by simpa [stops, hemp] using hq
        simp [aggregate, flattenRecords, hemp, hns, ih hl]

/-- A non-empty short page breaks the loop: its records are appended and
everything after it is dropped. -/
theorem aggregate_cons_stop {α : Type} (limit : Nat) (r : List α) (rest : List (PageResult α))
    (hne : r ≠ []) (hshort : r.length < limit) :
    aggregate limit (PageResult.ok r :: rest) = r := by
  have hemp : r.isEmpty = false := by simpa using hne
  simp [aggregate, hemp, hshort]

/-- A failed page is transparent to aggregation: deleting it from the
gathered results changes nothing, so it neither contributes records nor
prevents later pages from contributing. -/
theorem aggregate_erase_exn {α : Type} (limit : Nat) (pre post : List (PageResult α)) :
    aggregate limit (pre ++ PageResult.exn :: post) = aggregate limit (pre ++ post) := by
  induction pre with
  | nil => rfl
  | cons q pre ih =>
    cases q with
    | exn => simpa [aggregate] using ih
    | ok r =>
      cases hemp : r.isEmpty with
      | true => simpa [aggregate, hemp] using ih
      | false =>
        by_cases hshort : r.length < limit
        · simp [aggregate, hemp, hshort]
        · simp [aggregate, hemp, hshort, ih]

/-- When page 0 succeeds, `get_all_current_markets` never propagates an
error, whatever the fanned-out pages do. -/
theorem result_ok_of_page0_ok {α : Type} (limit max_pages : Nat) (pages : Nat → PageResult α)
    (r0 : List α) (h0 : pages 0 = PageResult.ok r0) :
    ∃ res, (get_all_current_markets limit max_pages pages).result = .ok res := by
  simp only [get_all_current_markets, h0]
  by_cases hz : r0.length = 0
  · rw [if_pos hz]
    exact ⟨r0, rfl⟩
  · by_cases hf : r0.length = limit
    · rw [if_neg hz, if_pos hf]
      exact ⟨_, rfl⟩
    · rw [if_neg hz, if_neg hf]
      exact ⟨r0, rfl⟩

/-- Aggregating the pages `a, a+1, ..., a+n-1` yields the concatenation of
the records of some strictly increasing subsequence of successful pages. -/
theorem aggregate_range_decomp {α : Type} (limit : Nat) (pages : Nat → PageResult α)
    (n : Nat) : ∀ a : Nat, ∃ idxs : List Nat, List.Pairwise (· < ·) idxs ∧
      (∀ i ∈ idxs, a ≤ i ∧ ∃ r, pages i = PageResult.ok r) ∧
      aggregate limit ((List.range' a n).map pages) = flattenRecords (idxs.map pages) := by
  induction n with
  | zero => exact fun a => ⟨[], by simp, by simp, rfl⟩
  | succ n ih =>
    intro a
    obtain ⟨idxs, hsort, hmem, heq⟩ := ih (a + 1)
    rw [show List.range' a (n + 1) = a :: List.range' (a + 1) n from rfl, List.map_cons]
    cases hp : pages a with
    | exn =>
      refine ⟨idxs, hsort,
        fun i hi => ⟨Nat.le_of_succ_le (hmem i hi).1, (hmem i hi).2⟩, ?_⟩
      simpa [aggregate] using heq
    | ok r =>
      cases hemp : r.isEmpty with
      | true =>
        refine ⟨idxs, hsort,
          fun i hi => ⟨Nat.le_of_succ_le (hmem i hi).1, (hmem i hi).2⟩, ?_⟩
        simpa [aggregate, hemp] using heq
      | false =>
        by_cases hshort : r.length < limit
        · refine ⟨[a], by simp, ?_, ?_⟩
          · intro i hi
            rw [List.mem_singleton] at hi
            rw [hi]
            exact ⟨Nat.le_refl a, ⟨r, hp⟩⟩
          · simp [aggregate, hemp, hshort, flattenRecords, hp]
        · refine ⟨a :: idxs, ?_, ?_, ?_⟩
          · rw [List.pairwise_cons]
            exact ⟨fun i hi => Nat.lt_of_succ_le (hmem i hi).1, hsort⟩
          · intro i hi
            rcases List.mem_cons.mp hi with h | h
            · rw [h]
              exact ⟨Nat.le_refl a, ⟨r, hp⟩⟩
            · exact ⟨Nat.le_of_succ_le (hmem i h).1, (hmem i h).2⟩
          · rw [List.map_cons, hp]
            simp [aggregate, flattenRecords, hemp, hshort, heq]

/-- Pages that all return no records from index `a` on contribute nothing
to the flattened records of the page range starting at `a`. -/
theorem flattenRecords_of_all_empty {α : Type} (pages : Nat → PageResult α) :
    ∀ (m a : Nat), (∀ i, a ≤ i → pages i = PageResult.ok []) →
      flattenRecords ((List.range' a m).map pages) = [] := by
  intro m
  induction m with
  | zero => intro a _; rfl
  | succ m ih =>
    intro a h
    rw [show List.range' a (m + 1) = a :: List.range' (a + 1) m from rfl, List.map_cons,
      h a (Nat.le_refl a)]
    show [] ++ flattenRecords ((List.range' (a + 1) m).map pages) = []
    rw [List.nil_append]
    exact ih (a + 1) (fun i hi => h i (Nat.le_of_succ_le hi))

/-- Claim C1, counterexample: with `limit = 2` and `max_pages = 10`,
`pagesC1` has page 1 return 0 records (strictly fewer than `page_size`),
yet page 2's records `[3, 4]` are still aggregated — a 0-record page is
not treated as an end-of-data signal, contradicting the claim that every
page beyond it is ignored (which would give exactly page 0's `[1, 2]`). -/
theorem c1_counterexample :
    (get_all_current_markets 2 10 pagesC1).result = Except.ok [1, 2, 3, 4]
    ∧ (get_all_current_markets 2 10 pagesC1).result ≠ Except.ok [1, 2] := by
  refine ⟨rfl, fun h => ?_⟩
  have h1 : (get_all_current_markets 2 10 pagesC1).result = Except.ok [1, 2, 3, 4] := rfl
  rw [h1] at h
  simp at h

/-- Claim C1 (amended): among the fan-out results in ascending offset
order, the first successful page that is non-empty and strictly shorter
than `page_size` ends aggregation: pages before it contribute exactly the
records of their successful fetches (failed pages and 0-record pages are
skipped without stopping), its own records are appended last, and every
page beyond it is ignored even if it returned data. In particular, when
`min(max_pages, 10) ≥ 4`, if pages 0..2 each return exactly `page_size`
records and every page from 3 on returns 0 records, the result is the
concatenation of pages 0, 1, 2 in that order. -/
theorem c1_first_nonempty_short_page_ends_aggregation {α : Type}
    (limit max_pages : Nat) (pages : Nat → PageResult α) (r0 rp r1 r2 : List α)
    (pre post : List (PageResult α)) :
    (pages 0 = PageResult.ok r0 → r0.length = limit → 0 < limit →
      (fanout_indices max_pages).map pages = pre ++ PageResult.ok rp :: post →
      (∀ q ∈ pre, stops limit q = false) →
      rp ≠ [] → rp.length < limit →
      (get_all_current_markets limit max_pages pages).result =
        Except.ok (r0 ++ (flattenRecords pre ++ rp)))
    ∧ (pages 0 = PageResult.ok r0 → r0.length = limit → 0 < limit →
      pages 1 = PageResult.ok r1 → r1.length = limit →
      pages 2 = PageResult.ok r2 → r2.length = limit →
      (∀ i, 3 ≤ i → pages i = PageResult.ok []) → 4 ≤ min max_pages 10 →
      (get_all_current_markets limit max_pages pages).result =
        Except.ok (r0 ++ (r1 ++ r2))) := by
  constructor
  · intro h0 hfull hpos hsplit hpre hne hshort
    have hz : ¬ r0.length = 0 := by omega
    simp only [get_all_current_markets, h0]
    rw [if_neg hz, if_pos hfull]
    rw [hsplit, aggregate_append_of_no_stop limit pre _ hpre,
      aggregate_cons_stop limit rp post hne hshort,
      aggregate_no_stop_eq_flatten limit pre hpre]
  · intro h0 hfull hpos h1 hr1 h2 hr2 hrest hmp
    have hz : ¬ r0.length = 0 := by omega
    simp only [get_all_current_markets, h0]
    rw [if_neg hz, if_pos hfull]
    have hnostop : ∀ q ∈ (fanout_indices max_pages).map pages, stops limit q = false := by
      intro q hq
      obtain ⟨i, hi, hqi⟩ := List.mem_map.mp hq
      rw [← hqi]
      have hi' : 1 ≤ i ∧ i < 1 + (min max_pages 10 - 1) := by
        rw [show fanout_indices max_pages =
          List.range' 1 (min max_pages 10 - 1) from rfl] at hi
        exact List.mem_range'_1.mp hi
      by_cases e1 : i = 1
      · rw [e1, h1]
        simp [stops, hr1, Nat.lt_irrefl]
      · by_cases e2 : i = 2
        · rw [e2, h2]
          simp [stops, hr2, Nat.lt_irrefl]
        · rw [hrest i (by omega)]
          simp [stops]
    rw [aggregate_no_stop_eq_flatten limit _ hnostop]
    obtain ⟨m, hm⟩ : ∃ m, min max_pages 10 - 1 = m + 2 := ⟨min max_pages 10 - 3, by omega⟩
    rw [show fanout_indices max_pages = List.range' 1 (min max_pages 10 - 1) from rfl, hm]
    rw [show List.range' 1 (m + 2) = 1 :: 2 :: List.range' 3 m from rfl]
    show Except.ok (r0 ++ flattenRecords ((1 :: 2 :: List.range' 3 m).map pages)) =
      Except.ok (r0 ++ (r1 ++ r2))
    rw [List.map_cons, List.map_cons, h1, h2]
    rw [show flattenRecords
        (PageResult.ok r1 :: PageResult.ok r2 :: (List.range' 3 m).map pages) =
      r1 ++ (r2 ++ flattenRecords ((List.range' 3 m).map pages)) from rfl]
    rw [flattenRecords_of_all_empty pages m 3 (fun i hi => hrest i hi)]
    rw [List.append_nil]

/-- Claim C1 witness: with limit 2 over `pagesW1`, pages 0 and 1 are full,
page 2 is empty and skipped, page 3 is short and non-empty so aggregation
stops there, and the full pages 4..9 are ignored; with limit 2 over
`pagesW3`, pages 0..2 are full and pages 3..9 return 0 records, so the
result is pages 0, 1 and 2 concatenated. -/
theorem c1_witness :
    (get_all_current_markets 2 10 pagesW1).result = Except.ok [1, 2, 3, 4, 5]
    ∧ (get_all_current_markets 2 10 pagesW3).result = Except.ok [1, 2, 3, 4, 5, 6] := by
  constructor
  · have h := (c1_first_nonempty_short_page_ends_aggregation 2 10 pagesW1 [1, 2] [5]
      [] []
      [PageResult.ok [3, 4], PageResult.ok []]
      [PageResult.ok [9, 9], PageResult.ok [9, 9], PageResult.ok [9, 9],
        PageResult.ok [9, 9], PageResult.ok [9, 9], PageResult.ok [9, 9]]).1
      rfl rfl (by decide) (by decide) (by decide) (by decide) (by decide)
    rw [h]
    rfl
  · have h := (c1_first_nonempty_short_page_ends_aggregation 2 10 pagesW3 [1, 2] []
      [3, 4] [5, 6] [] []).2 rfl rfl (by decide) rfl rfl rfl rfl ?_ (by decide)
    · rw [h]
      rfl
    · intro i hi
      have e0 : ¬ i = 0 := by omega
      have e1 : ¬ i = 1 := by omega
      have e2 : ¬ i = 2 := by omega
      simp [pagesW3, e0, e1, e2]

/-- Claim C2: `get_all_current_markets` propagates an error exactly when
the page-0 fetch raises, and in the aggregation loop a failed fan-out page
is transparent — deleting it changes nothing, so a page failure neither
makes the call raise nor prevents the records of successful pages at lower
or higher offsets from appearing (a failed page contributes no records, as
its outcome carries none). -/
theorem c2_error_iff_page0_fails {α : Type} (limit max_pages : Nat)
    (pages : Nat → PageResult α) (pre post : List (PageResult α)) :
    ((get_all_current_markets limit max_pages pages).result = Except.error ()
      ↔ pages 0 = PageResult.exn)
    ∧ aggregate limit (pre ++ PageResult.exn :: post) = aggregate limit (pre ++ post) := by
  refine ⟨⟨?_, ?_⟩, aggregate_erase_exn limit pre post⟩
  · intro h
    cases hp : pages 0 with
    | exn => rfl
    | ok r0 =>
      obtain ⟨res, hres⟩ := result_ok_of_page0_ok limit max_pages pages r0 hp
      rw [hres] at h
      exact Except.noConfusion h
  · intro h
    simp [get_all_current_markets, h]

/-- Claim C2 witness: when every page fails, the page-0 failure propagates
to the caller. -/
theorem c2_witness :
    (get_all_current_markets 2 10 pagesAllExn).result = Except.error () :=
  (c2_error_iff_page0_fails 2 10 pagesAllExn [] []).1.mpr rfl

/-- Claim C3: for positive `page_size`, when page 0 returns 0 records
`get_all_current_markets` returns the empty sequence and issues no fan-out
requests. -/
theorem c3_empty_page0_returns_empty {α : Type} (limit max_pages : Nat)
    (pages : Nat → PageResult α)
    (hpos : 0 < limit) (h0 : pages 0 = PageResult.ok ([] : List α)) :
    (get_all_current_markets limit max_pages pages).result = Except.ok []
    ∧ (get_all_current_markets limit max_pages pages).fanoutOffsets = [] := by
  constructor <;> simp [get_all_current_markets, h0]

/-- Claim C3 witness: page 0 empty at page size 3. -/
theorem c3_witness :
    (get_all_current_markets 3 10 pagesEmpty).result = Except.ok []
    ∧ (get_all_current_markets 3 10 pagesEmpty).fanoutOffsets = [] :=
  c3_empty_page0_returns_empty 3 10 pagesEmpty (by decide) rfl

/-- Claim C4: when page 0 returns `k` records with `0 < k < page_size`,
`get_all_current_markets` returns exactly those records, in order, and
issues no fan-out requests. -/
theorem c4_short_page0_returned_alone {α : Type} (limit max_pages k : Nat)
    (pages : Nat → PageResult α) (r0 : List α)
    (hk : 0 < k) (hlt : k < limit)
    (h0 : pages 0 = PageResult.ok r0) (hlen : r0.length = k) :
    (get_all_current_markets limit max_pages pages).result = Except.ok r0
    ∧ (get_all_current_markets limit max_pages pages).fanoutOffsets = [] := by
  have hz : ¬ r0.length = 0 := by omega
  have hf : ¬ r0.length = limit := by omega
  constructor <;>
  · simp only [get_all_current_markets, h0]
    rw [if_neg hz, if_neg hf]

/-- Claim C4 witness: one record on page 0 at page size 3. -/
theorem c4_witness :
    (get_all_current_markets 3 10 pagesShort).result = Except.ok [7]
    ∧ (get_all_current_markets 3 10 pagesShort).fanoutOffsets = [] :=
  c4_short_page0_returned_alone 3 10 1 pagesShort [7] (by decide) (by decide) rfl rfl

/-- Claim C5: with page 0 full, the fan-out phase requests exactly the
pages 1 through `min(max_pages, 10) - 1`, each at offset `page * limit`;
the number of concurrent requests never exceeds 9 however large
`max_pages` is; and `max_pages` 0 or 1 produces no fan-out requests, the
result being exactly page 0's records. -/
theorem c5_fanout_bounds {α : Type} (limit max_pages : Nat)
    (pages : Nat → PageResult α) (r0 : List α)
    (hpos : 0 < limit) (h0 : pages 0 = PageResult.ok r0) (hfull : r0.length = limit) :
    (get_all_current_markets limit max_pages pages).fanoutOffsets =
      (List.range' 1 (min max_pages 10 - 1)).map (fun page => page * limit)
    ∧ (∀ p : Nat, p ∈ fanout_indices max_pages ↔ 1 ≤ p ∧ p ≤ min max_pages 10 - 1)
    ∧ (get_all_current_markets limit max_pages pages).fanoutOffsets.length ≤ 9
    ∧ (max_pages = 0 ∨ max_pages = 1 →
        (get_all_current_markets limit max_pages pages).fanoutOffsets = []
        ∧ (get_all_current_markets limit max_pages pages).result = Except.ok r0) := by
  have hz : ¬ r0.length = 0 := by omega
  have htrace : get_all_current_markets limit max_pages pages =
      ⟨(fanout_indices max_pages).map (fun page => page * limit),
        Except.ok (r0 ++ aggregate limit ((fanout_indices max_pages).map pages))⟩ := by
    simp only [get_all_current_markets, h0]
    rw [if_neg hz, if_pos hfull]
  refine ⟨by rw [htrace]; rfl, ?_, ?_, ?_⟩
  · intro p
    rw [fanout_indices, List.mem_range'_1]
    omega
  · rw [htrace]
    simp only [List.length_map, fanout_indices, List.length_range']
    omega
  · intro h
    have hn : min max_pages 10 - 1 = 0 := by
      rcases h with h | h <;> rw [h] <;> decide
    have hidx : fanout_indices max_pages = [] := by
      show List.range' 1 (min max_pages 10 - 1) = []
      rw [hn]
      rfl
    rw [htrace, hidx]
    exact ⟨rfl, by simp [aggregate]⟩

/-- Claim C5 witness: `max_pages = 0` with a full page 0 of size 2 issues
no fan-out requests and returns page 0's records. -/
theorem c5_witness :
    (get_all_current_markets 2 0 pagesFull).fanoutOffsets = []
    ∧ (get_all_current_markets 2 0 pagesFull).result = Except.ok [7, 8] :=
  (c5_fanout_bounds 2 0 pagesFull [7, 8] (by decide) rfl rfl).2.2.2 (Or.inl rfl)

/-- Claim C6: any successful result of `get_all_current_markets` is the
concatenation of the whole record lists of some set of successful pages
taken in strictly ascending page (hence offset) order, starting with page
0. Completion order of the concurrent requests cannot influence this: the
embedding of `asyncio.gather` indexes outcomes by page, since `gather`
returns them in task-submission order. -/
theorem c6_result_is_ordered_concat {α : Type} (limit max_pages : Nat)
    (pages : Nat → PageResult α) (res : List α)
    (h : (get_all_current_markets limit max_pages pages).result = Except.ok res) :
    ∃ idxs : List Nat, List.Pairwise (· < ·) (0 :: idxs)
      ∧ (∀ i ∈ 0 :: idxs, ∃ r, pages i = PageResult.ok r)
      ∧ res = flattenRecords ((0 :: idxs).map pages) := by
  cases h0 : pages 0 with
  | exn =>
    simp only [get_all_current_markets, h0] at h
    exact Except.noConfusion h
  | ok r0 =>
    simp only [get_all_current_markets, h0] at h
    have hmem0 : ∀ i ∈ [0], ∃ r, pages i = PageResult.ok r := by
      intro i hi
      rw [List.mem_singleton] at hi
      rw [hi]
      exact ⟨r0, h0⟩
    by_cases hz : r0.length = 0
    · rw [if_pos hz] at h
      have hres : Except.ok r0 = Except.ok res := h
      injection hres with hres
      exact ⟨[], by simp, hmem0, by simp [flattenRecords, h0, ← hres]⟩
    · by_cases hf : r0.length = limit
      · rw [if_neg hz, if_pos hf] at h
        have hres : Except.ok (r0 ++ aggregate limit ((fanout_indices max_pages).map pages))
            = Except.ok res := h
        injection hres with hres
        obtain ⟨idxs, hsort, hmem, heq⟩ :=
          aggregate_range_decomp limit pages (min max_pages 10 - 1) 1
        refine ⟨idxs, ?_, ?_, ?_⟩
        · rw [List.pairwise_cons]
          exact ⟨fun i hi => Nat.lt_of_succ_le (hmem i hi).1, hsort⟩
        · intro i hi
          rcases List.mem_cons.mp hi with hh | hh
          · rw [hh]
            exact ⟨r0, h0⟩
          · exact (hmem i hh).2
        · rw [← hres, List.map_cons, h0]
          show r0 ++ aggregate limit ((fanout_indices max_pages).map pages) =
            flattenRecords (PageResult.ok r0 :: idxs.map pages)
          rw [show flattenRecords (PageResult.ok r0 :: idxs.map pages) =
            r0 ++ flattenRecords (idxs.map pages) from rfl]
          rw [show fanout_indices max_pages =
            List.range' 1 (min max_pages 10 - 1) from rfl, heq]
      · rw [if_neg hz, if_neg hf] at h
        have hres : Except.ok r0 = Except.ok res := h
        injection hres with hres
        exact ⟨[], by simp, hmem0, by simp [flattenRecords, h0, ← hres]⟩

/-- Claim C6 witness: over `pagesW2` (page 1 failed, page 2 short), the
result `[1, 2, 3]` decomposes as the whole pages 0 and 2 in ascending
order. -/
theorem c6_witness :
    ∃ idxs : List Nat, List.Pairwise (· < ·) (0 :: idxs)
      ∧ (∀ i ∈ 0 :: idxs, ∃ r, pagesW2 i = PageResult.ok r)
      ∧ [1, 2, 3] = flattenRecords ((0 :: idxs).map pagesW2) :=
  c6_result_is_ordered_concat 2 10 pagesW2 [1, 2, 3] rfl

/-- When `parse_pydantic && local_file_path.isSome` is false, no branch of
`get_markets` returns a raised configuration error. -/
theorem get_markets_no_config_error {α β : Type} (pp : Bool) (lfp : Option String)
    (resp : HttpResponse α) (parse : α → Option β)
    (hcond : (pp && lfp.isSome) = false) (e : String) :
    (get_markets pp lfp resp parse).ret ≠ CallReturn.raised (GammaError.configError e) := by
  intro h
  by_cases hs : resp.status = 200
  · cases lfp with
    | none => cases pp <;> simp [get_markets, hs] at h
    | some path =>
      have hpp : pp = false := by simpa using hcond
      rw [hpp] at h
      simp [get_markets, hs] at h
  · simp [get_markets, hcond, hs] at h

/-- When `parse_pydantic && local_file_path.isSome` is false, no branch of
`get_events` returns a raised configuration error. -/
theorem get_events_no_config_error {γ δ : Type} (pp : Bool) (lfp : Option String)
    (resp : HttpResponse γ) (parse : γ → Option δ)
    (hcond : (pp && lfp.isSome) = false) (e : String) :
    (get_events pp lfp resp parse).ret ≠ CallReturn.raised (GammaError.configError e) := by
  intro h
  by_cases hs : resp.status = 200
  · cases lfp with
    | none => cases pp <;> simp [get_events, hs] at h
    | some path =>
      have hpp : pp = false := by simpa using hcond
      rw [hpp] at h
      simp [get_events, hs] at h
  · simp [get_events, hcond, hs] at h

/-- Claim C7: calling `get_markets` or `get_events` with both
`parse_pydantic` set and a `local_file_path` raises the configuration
error with the session not acquired and no request made; with at most one
of the two options set, no configuration error is raised by either
function. -/
theorem c7_mutually_exclusive_options {α β γ δ : Type} (path : String)
    (resp : HttpResponse α) (parse : α → Option β)
    (resp' : HttpResponse γ) (parse' : γ → Option δ)
    (pp : Bool) (lfp : Option String) (hone : pp = false ∨ lfp = none) :
    get_markets true (some path) resp parse =
      ⟨false, false, none, CallReturn.raised (GammaError.configError configErrorMessage)⟩
    ∧ get_events true (some path) resp' parse' =
      ⟨false, false, none, CallReturn.raised (GammaError.configError configErrorMessage)⟩
    ∧ (∀ e, (get_markets pp lfp resp parse).ret ≠
        CallReturn.raised (GammaError.configError e))
    ∧ (∀ e, (get_events pp lfp resp' parse').ret ≠
        CallReturn.raised (GammaError.configError e)) := by
  have hcond : (pp && lfp.isSome) = false := by
    rcases hone with h | h <;> simp [h]
  exact ⟨rfl, rfl,
    fun e => get_markets_no_config_error pp lfp resp parse hcond e,
    fun e => get_events_no_config_error pp lfp resp' parse' hcond e⟩

/-- Claim C7 witness: both options set raises the configuration error with
no session and no request; only `parse_pydantic` set does not. -/
theorem c7_witness :
    get_markets true (some "markets.json") (⟨200, [0]⟩ : HttpResponse Nat)
      (fun n => some n) =
      ⟨false, false, none, CallReturn.raised (GammaError.configError configErrorMessage)⟩
    ∧ (get_markets true none (⟨200, [0]⟩ : HttpResponse Nat) (fun n => some n)).ret ≠
        CallReturn.raised (GammaError.configError configErrorMessage) := by
  have h := c7_mutually_exclusive_options "markets.json"
    (⟨200, [0]⟩ : HttpResponse Nat) (fun n => some n)
    (⟨200, [0]⟩ : HttpResponse Nat) (fun n => some n) true none (Or.inr rfl)
  exact ⟨h.1, h.2.2.1 configErrorMessage⟩

/-- Claim C8 counterexample: on HTTP status 404, `get_markets` raises the
error with message "Gamma API error: HTTP 404", and the markets endpoint
URL does not occur in that message — the error does not carry the
endpoint. -/
theorem c8_counterexample :
    (get_markets false none (⟨404, ([] : List Nat)⟩) (fun n => some n)).ret =
      CallReturn.raised (GammaError.apiError (apiErrorMessage 404))
    ∧ ¬ ∃ s t, s ++ gamma_markets_endpoint.data ++ t = (apiErrorMessage 404).data := by
  refine ⟨rfl, ?_⟩
  rintro ⟨s, t, h⟩
  have hl := congrArg List.length h
  have h1 : gamma_markets_endpoint.data.length = 40 := rfl
  have h2 : (apiErrorMessage 404).data.length = 25 := rfl
  simp only [List.length_append, h1, h2] at hl
  omega

/-- Claim C8 (amended): on any non-200 status, `get_markets` raises a
remote-API error whose message carries the HTTP status code; the endpoint
is not part of the error. -/
theorem c8_non200_raises_status_error {α β : Type} (pp : Bool) (lfp : Option String)
    (status : Nat) (body : List α) (parse : α → Option β)
    (hcfg : (pp && lfp.isSome) = false) (hstatus : status ≠ 200) :
    (get_markets pp lfp (⟨status, body⟩ : HttpResponse α) parse).ret =
      CallReturn.raised (GammaError.apiError (apiErrorMessage status))
    ∧ ∃ s t, s ++ (toString status).data ++ t = (apiErrorMessage status).data := by
  constructor
  · simp [get_markets, hcfg, hstatus]
  · refine ⟨"Gamma API error: HTTP ".data, [], ?_⟩
    rw [List.append_nil, ← String.data_append]
    rfl

/-- Claim C8 witness: concrete status 500, no conflicting options. -/
theorem c8_witness :
    (get_markets false none (⟨500, ([] : List Nat)⟩) (fun n => some n)).ret =
      CallReturn.raised (GammaError.apiError (apiErrorMessage 500))
    ∧ ∃ s t, s ++ (toString 500).data ++ t = (apiErrorMessage 500).data :=
  c8_non200_raises_status_error false none 500 [] (fun n => some n) (by decide) (by decide)

/-- Claim C9: with a `local_file_path` and a 200 response (the call having
reached the request), `get_markets` and `get_events` write the decoded
body to the file and return Python `None` — falling off the
`local_file_path` branch without a `return` — despite the declared list
return type. -/
theorem c9_file_dump_returns_none {α β γ δ : Type} (pp : Bool) (path : String)
    (resp : HttpResponse α) (parse : α → Option β)
    (resp' : HttpResponse γ) (parse' : γ → Option δ)
    (hs : resp.status = 200) (hs' : resp'.status = 200)
    (hreq : (get_markets pp (some path) resp parse).requestMade = true) :
    get_markets pp (some path) resp parse =
      ⟨true, true, some (path, resp.body), CallReturn.noneReturn⟩
    ∧ get_events pp (some path) resp' parse' =
      ⟨true, true, some (path, resp'.body), CallReturn.noneReturn⟩ := by
  cases pp with
  | true => exact absurd hreq (by simp [get_markets])
  | false => exact ⟨by simp [get_markets, hs], by simp [get_events, hs']⟩

/-- Claim C9 witness: a concrete 200 response dumped to "dump.json". -/
theorem c9_witness :
    get_markets false (some "dump.json") (⟨200, [1, 2]⟩ : HttpResponse Nat)
      (fun n => some n) =
      ⟨true, true, some ("dump.json", [1, 2]), CallReturn.noneReturn⟩ := by
  have h := c9_file_dump_returns_none false "dump.json"
    (⟨200, [1, 2]⟩ : HttpResponse Nat) (fun n => some n)
    (⟨200, [1, 2]⟩ : HttpResponse Nat) (fun n => some n) rfl rfl rfl
  exact h.1

/-- Claim C10: with `parse_pydantic` and a 200 response, `get_markets`
returns exactly the records that parse successfully, in order — records on
which `parse_pydantic_market` returns `None` are silently dropped, every
returned element is the successful parse of some raw record, and the
returned length never exceeds the raw record count. -/
theorem c10_parse_failures_dropped {α β : Type} (body : List α) (parse : α → Option β) :
    (get_markets true none (⟨200, body⟩ : HttpResponse α) parse).ret =
      CallReturn.parsedList (body.filterMap parse)
    ∧ (∀ m ∈ body.filterMap parse, ∃ raw ∈ body, parse raw = some m)
    ∧ (body.filterMap parse).length ≤ body.length := by
  refine ⟨rfl, ?_, List.length_filterMap_le parse body⟩
  intro m hm
  exact List.mem_filterMap.mp hm

/-- Claim C10 witness: of two raw records only the first parses; the
result is the single parsed object. -/
theorem c10_witness :
    (get_markets true none (⟨200, [0, 1]⟩ : HttpResponse Nat)
      (fun n => if n = 0 then some 7 else none)).ret =
      CallReturn.parsedList [7] := by
  have h := (c10_parse_failures_dropped [0, 1]
    (fun n : Nat => if n = 0 then some 7 else none)).1
  rw [h]
  rfl

end GammaAsync
